import Mathlib

/-!
Verification of the DunGenMMORPGEngine repository.

The repository consists of two Python files:

* `test.py` defines `findLongestSubStringThatContainsTwoCharacters(string, c1, c2)`,
  a brute-force double scan that returns the longest contiguous substring of
  `string` that starts with `c1` and ends with `c2` at a strictly later index.
* `main.py` defines small string helpers `OCCURS`, `SUBSTR`, `AT`, `VAL` built on
  Python builtins (`str.count`, `str.find`, slicing, `int`).

Strings are embedded as `List Char`, Python `None`/`int`/`str` values as `PyVal`,
and fallible code (Python functions that may raise or implicitly return `None`)
returns `Option`.
-/

/-- Python slice `s[i:j]` for non-negative bounds: the elements at indices
`i, i+1, ..., j-1`, clamped to the string as Python slices are. -/
def pySlice (s : List Char) (i j : Nat) : List Char :=
  (s.drop i).take (j - i)

/-- Embedding of `findLongestSubStringThatContainsTwoCharacters` from `test.py`:

```python
def findLongestSubStringThatContainsTwoCharacters(string, c1, c2):
  longest = ""
  for i in range(len(string)):
    for j in range(i+1, len(string)):
      if string[i] == c1 and string[j] == c2:
        if len(string[i:j+1]) > len(longest):
          longest = string[i:j+1]
  return longest
```

The loops become folds over `List.range` / `List.range'`, and the in-range
indexings `string[i]`, `string[j]` become `s.get? i = some c1` etc. -/
def findLongestSubStringThatContainsTwoCharacters (s : List Char) (c1 c2 : Char) : List Char :=
  (List.range s.length).foldl
    (fun longest i =>
      (List.range' (i + 1) (s.length - (i + 1))).foldl
        (fun longest j =>
          if s.get? i = some c1 ∧ s.get? j = some c2 then
            if (pySlice s i (j + 1)).length > longest.length then pySlice s i (j + 1)
            else longest
          else longest)
        longest)
    []

/-- The index pairs `(i, j)` with `0 ≤ i < j < N` in the row-major order in which
the nested loops of the source visit them. -/
def pairList (s : List Char) : List (Nat × Nat) :=
  (List.range s.length).flatMap
    (fun i => (List.range' (i + 1) (s.length - (i + 1))).map (fun j => (i, j)))

/-- The loop body of `findLongestSubStringThatContainsTwoCharacters`, acting on
one candidate index pair. -/
def pairStep (s : List Char) (c1 c2 : Char) (longest : List Char) (p : Nat × Nat) : List Char :=
  if s.get? p.1 = some c1 ∧ s.get? p.2 = some c2 then
    if (pySlice s p.1 (p.2 + 1)).length > longest.length then pySlice s p.1 (p.2 + 1)
    else longest
  else longest

/-- A valid span of `s` for markers `c1`, `c2`: indices `i < j` inside `s` with
`s[i] == c1` and `s[j] == c2` (the spec's Candidate span). -/
def ValidSpan (s : List Char) (c1 c2 : Char) (i j : Nat) : Prop :=
  i < j ∧ j < s.length ∧ s.get? i = some c1 ∧ s.get? j = some c2

instance (s : List Char) (c1 c2 : Char) (i j : Nat) : Decidable (ValidSpan s c1 c2 i j) := by
  unfold ValidSpan
  exact inferInstance

-- Concrete input strings used by the spec's scenarios and by `main.py`.

def strBA : List Char := "ba".toList

def strAAB : List Char := "aab".toList

def strAAA : List Char := "aaa".toList

example : findLongestSubStringThatContainsTwoCharacters strBA 'a' 'b' = [] := by decide

example : findLongestSubStringThatContainsTwoCharacters strAAB 'a' 'b' = strAAB := by decide

example : findLongestSubStringThatContainsTwoCharacters strAAA 'a' 'a' = strAAA := by decide

/-! ### Rewriting the nested loops as a single fold over the pair list -/

lemma foldl_flatMap_eq {α β γ : Type} (l : List α) (f : α → List β) (g : γ → β → γ) :
    ∀ init : γ, (l.flatMap f).foldl g init = l.foldl (fun acc x => (f x).foldl g acc) init := by
  induction l with
  | nil => intro init; rfl
  | cons a t ih =>
      intro init
      rw [List.flatMap_cons, List.foldl_append, List.foldl_cons, ih]

lemma findLongest_eq_foldl_pairList (s : List Char) (c1 c2 : Char) :
    findLongestSubStringThatContainsTwoCharacters s c1 c2 =
      (pairList s).foldl (pairStep s c1 c2) [] := by
  unfold findLongestSubStringThatContainsTwoCharacters pairList
  rw [foldl_flatMap_eq]
  simp only [List.foldl_map, pairStep]

lemma mem_pairList {s : List Char} {p : Nat × Nat} :
    p ∈ pairList s ↔ p.1 < p.2 ∧ p.2 < s.length := by
  unfold pairList
  rw [List.mem_flatMap]
  constructor
  · rintro ⟨i, hi, hp⟩
    rw [List.mem_map] at hp
    obtain ⟨j, hj, rfl⟩ := hp
    rw [List.mem_range] at hi
    rw [List.mem_range'_1] at hj
    exact ⟨hj.1, by omega⟩
  · rintro ⟨h1, h2⟩
    refine ⟨p.1, ?_, ?_⟩
    · rw [List.mem_range]; omega
    · rw [List.mem_map]
      refine ⟨p.2, ?_, rfl⟩
      rw [List.mem_range'_1]
      omega

/-! ### Facts about slices `s[i:j+1]` of valid spans -/

lemma pySlice_length {s : List Char} {i j : Nat} (hij : i < j) (hj : j < s.length) :
    (pySlice s i (j + 1)).length = j - i + 1 := by
  unfold pySlice
  rw [List.length_take, List.length_drop]
  omega

lemma pySlice_get?_zero {s : List Char} {i j : Nat} (hij : i < j) :
    (pySlice s i (j + 1)).get? 0 = s.get? i := by
  unfold pySlice
  rw [List.get?_take (by omega), List.get?_drop]
  rfl

lemma pySlice_get?_last {s : List Char} {i j : Nat} (hij : i < j) (hj : j < s.length) :
    (pySlice s i (j + 1)).get? ((pySlice s i (j + 1)).length - 1) = s.get? j := by
  rw [pySlice_length hij hj]
  unfold pySlice
  have h1 : j - i + 1 - 1 < j + 1 - i := by omega
  rw [List.get?_take h1, List.get?_drop]
  congr 1
  omega

lemma pySlice_sandwich {s : List Char} {i j : Nat} (hij : i < j) :
    s.take i ++ pySlice s i (j + 1) ++ s.drop (j + 1) = s := by
  unfold pySlice
  have h1 : (s.drop i).drop (j + 1 - i) = s.drop (j + 1) := by
    rw [List.drop_drop]
    congr 1
    omega
  calc s.take i ++ (s.drop i).take (j + 1 - i) ++ s.drop (j + 1)
      = s.take i ++ ((s.drop i).take (j + 1 - i) ++ (s.drop i).drop (j + 1 - i)) := by
        rw [h1, List.append_assoc]
    _ = s.take i ++ s.drop i := by rw [List.take_append_drop]
    _ = s := List.take_append_drop i s

lemma lt_length_of_get?_eq_some {l : List Char} {n : Nat} {a : Char}
    (h : l.get? n = some a) : n < l.length := by
  rw [List.get?_eq_some] at h
  obtain ⟨h1, _⟩ := h
  exact h1

/-! ### Invariants of the fold -/

/-- The accumulator of the scan is either still the initial empty string or the
slice of some valid span. -/
def AccShape (s : List Char) (c1 c2 : Char) (acc : List Char) : Prop :=
  acc = [] ∨ ∃ i j, ValidSpan s c1 c2 i j ∧ acc = pySlice s i (j + 1)

lemma pairStep_shape {s : List Char} {c1 c2 : Char} {acc : List Char} {p : Nat × Nat}
    (hp : p.1 < p.2) (hacc : AccShape s c1 c2 acc) :
    AccShape s c1 c2 (pairStep s c1 c2 acc p) := by
  unfold pairStep
  split
  · next h =>
      split
      · next =>
          right
          exact ⟨p.1, p.2, ⟨hp, lt_length_of_get?_eq_some h.2, h.1, h.2⟩, rfl⟩
      · exact hacc
  · exact hacc

lemma foldl_pairStep_shape (s : List Char) (c1 c2 : Char) :
    ∀ (L : List (Nat × Nat)) (acc : List Char), (∀ p ∈ L, p.1 < p.2) →
      AccShape s c1 c2 acc → AccShape s c1 c2 (L.foldl (pairStep s c1 c2) acc) := by
  intro L
  induction L with
  | nil => intro acc _ hacc; exact hacc
  | cons q t ih =>
      intro acc hmem hacc
      exact ih _ (fun p hp => hmem p (List.mem_cons_of_mem q hp))
        (pairStep_shape (hmem q (List.mem_cons_self q t)) hacc)

lemma length_le_pairStep (s : List Char) (c1 c2 : Char) (acc : List Char) (p : Nat × Nat) :
    acc.length ≤ (pairStep s c1 c2 acc p).length := by
  unfold pairStep
  split
  · split
    · next h => omega
    · exact Nat.le_refl _
  · exact Nat.le_refl _

lemma length_le_foldl_pairStep (s : List Char) (c1 c2 : Char) :
    ∀ (L : List (Nat × Nat)) (acc : List Char),
      acc.length ≤ (L.foldl (pairStep s c1 c2) acc).length := by
  intro L
  induction L with
  | nil => intro acc; exact Nat.le_refl _
  | cons q t ih =>
      intro acc
      exact Nat.le_trans (length_le_pairStep s c1 c2 acc q) (ih _)

lemma foldl_pairStep_max (s : List Char) (c1 c2 : Char) :
    ∀ (L : List (Nat × Nat)) (acc : List Char) (p : Nat × Nat), p ∈ L →
      ValidSpan s c1 c2 p.1 p.2 →
      p.2 - p.1 + 1 ≤ (L.foldl (pairStep s c1 c2) acc).length := by
  intro L
  induction L with
  | nil => intro acc p hp; exact absurd hp (List.not_mem_nil p)
  | cons q t ih =>
      intro acc p hp hv
      rcases List.mem_cons.mp hp with rfl | hmem
      · refine Nat.le_trans ?_ (length_le_foldl_pairStep s c1 c2 t _)
        unfold pairStep
        rw [if_pos ⟨hv.2.2.1, hv.2.2.2⟩]
        split
        · next => rw [pySlice_length hv.1 hv.2.1]
        · next h =>
            rw [pySlice_length hv.1 hv.2.1] at h
            omega
      · exact ih _ p hmem hv

/-! ### Characterization of the result -/

lemma findLongest_shape (s : List Char) (c1 c2 : Char) :
    AccShape s c1 c2 (findLongestSubStringThatContainsTwoCharacters s c1 c2) := by
  rw [findLongest_eq_foldl_pairList]
  exact foldl_pairStep_shape s c1 c2 (pairList s) []
    (fun p hp => (mem_pairList.mp hp).1) (Or.inl rfl)

lemma findLongest_max {s : List Char} {c1 c2 : Char} {i j : Nat}
    (h : ValidSpan s c1 c2 i j) :
    j - i + 1 ≤ (findLongestSubStringThatContainsTwoCharacters s c1 c2).length := by
  rw [findLongest_eq_foldl_pairList]
  exact foldl_pairStep_max s c1 c2 (pairList s) [] (i, j)
    (mem_pairList.mpr ⟨h.1, h.2.1⟩) h

lemma findLongest_empty_iff (s : List Char) (c1 c2 : Char) :
    findLongestSubStringThatContainsTwoCharacters s c1 c2 = [] ↔
      ¬ ∃ i j, ValidSpan s c1 c2 i j := by
  constructor
  · intro hemp
    rintro ⟨i, j, hv⟩
    have h1 := findLongest_max hv
    rw [hemp] at h1
    simp only [List.length_nil] at h1
    omega
  · intro hno
    rcases findLongest_shape s c1 c2 with h | ⟨i, j, hv, _⟩
    · exact h
    · exact absurd ⟨i, j, hv⟩ hno

lemma findLongest_eq_pySlice {s : List Char} {c1 c2 : Char} {i0 jm : Nat}
    (hv : ValidSpan s c1 c2 i0 jm)
    (hext : ∀ i j, ValidSpan s c1 c2 i j → i0 ≤ i ∧ j ≤ jm) :
    findLongestSubStringThatContainsTwoCharacters s c1 c2 = pySlice s i0 (jm + 1) := by
  rcases findLongest_shape s c1 c2 with h | ⟨i, j, hvij, heq⟩
  · rw [findLongest_empty_iff] at h
    exact absurd ⟨i0, jm, hv⟩ h
  · have hlen : (findLongestSubStringThatContainsTwoCharacters s c1 c2).length = j - i + 1 := by
      rw [heq, pySlice_length hvij.1 hvij.2.1]
    have hmax := findLongest_max hv
    rw [hlen] at hmax
    have hij := hext i j hvij
    obtain ⟨h5, h6, -, -⟩ := hv
    obtain ⟨h7, h8, -, -⟩ := hvij
    obtain ⟨h9, h10⟩ := hij
    have hi : i = i0 := by omega
    have hj : j = jm := by omega
    rw [heq, hi, hj]

lemma exists_extremal_span {s : List Char} {c1 c2 : Char}
    (h : ∃ i j, ValidSpan s c1 c2 i j) :
    ∃ i0 jm, ValidSpan s c1 c2 i0 jm ∧
      (∀ i, s.get? i = some c1 → i0 ≤ i) ∧ (∀ j, s.get? j = some c2 → j ≤ jm) := by
  obtain ⟨a, b, hab⟩ := h
  obtain ⟨hab1, hab2, hab3, hab4⟩ := hab
  have hex : ∃ i, s.get? i = some c1 := ⟨a, hab3⟩
  refine ⟨Nat.find hex, Nat.findGreatest (fun j => s.get? j = some c2) s.length, ?_, ?_, ?_⟩
  · have h1 : s.get? (Nat.find hex) = some c1 := Nat.find_spec hex
    have h2 : s.get? (Nat.findGreatest (fun j => s.get? j = some c2) s.length) = some c2 :=
      Nat.findGreatest_spec (P := fun j => s.get? j = some c2)
        (Nat.le_of_lt hab2) hab4
    have h3 : Nat.find hex ≤ a := Nat.find_min' hex hab3
    have h4 : b ≤ Nat.findGreatest (fun j => s.get? j = some c2) s.length :=
      Nat.le_findGreatest (P := fun j => s.get? j = some c2)
        (Nat.le_of_lt hab2) hab4
    exact ⟨by omega, lt_length_of_get?_eq_some h2, h1, h2⟩
  · intro i hi
    exact Nat.find_min' hex hi
  · intro j hj
    exact Nat.le_findGreatest (Nat.le_of_lt (lt_length_of_get?_eq_some hj)) hj

/-! ### Claim theorems for `findLongestSubStringThatContainsTwoCharacters` -/

/-- C1: whenever `findLongestSubStringThatContainsTwoCharacters(S, c1, c2)` returns a
non-empty result, the result's first symbol is `c1`, its last symbol is `c2`, it is a
contiguous sub-sequence of `S` (some prefix and suffix of `S` surround it), and its
length is at least 2. -/
theorem claim_C1_result_form (s : List Char) (c1 c2 : Char)
    (h : findLongestSubStringThatContainsTwoCharacters s c1 c2 ≠ []) :
    (findLongestSubStringThatContainsTwoCharacters s c1 c2).get? 0 = some c1 ∧
    (findLongestSubStringThatContainsTwoCharacters s c1 c2).getLast? = some c2 ∧
    (∃ t u, t ++ findLongestSubStringThatContainsTwoCharacters s c1 c2 ++ u = s) ∧
    2 ≤ (findLongestSubStringThatContainsTwoCharacters s c1 c2).length := by
  rcases findLongest_shape s c1 c2 with hemp | ⟨i, j, hv, heq⟩
  · exact absurd hemp h
  · obtain ⟨h1, h2, h3, h4⟩ := hv
    refine ⟨?_, ?_, ?_, ?_⟩
    · rw [heq, pySlice_get?_zero h1]
      exact h3
    · rw [List.getLast?_eq_get?, heq, pySlice_get?_last h1 h2]
      exact h4
    · exact ⟨s.take i, s.drop (j + 1), by rw [heq]; exact pySlice_sandwich h1⟩
    · rw [heq, pySlice_length h1 h2]
      omega

theorem claim_C1_witness :
    findLongestSubStringThatContainsTwoCharacters strAAB 'a' 'b' ≠ [] ∧
    ((findLongestSubStringThatContainsTwoCharacters strAAB 'a' 'b').get? 0 = some 'a' ∧
     (findLongestSubStringThatContainsTwoCharacters strAAB 'a' 'b').getLast? = some 'b' ∧
     (∃ t u, t ++ findLongestSubStringThatContainsTwoCharacters strAAB 'a' 'b' ++ u = strAAB) ∧
     2 ≤ (findLongestSubStringThatContainsTwoCharacters strAAB 'a' 'b').length) :=
  ⟨by decide, claim_C1_result_form strAAB 'a' 'b' (by decide)⟩

/-- C2: no valid span of `S` (indices `i < j` with `S[i] == c1`, `S[j] == c2`) is
strictly longer than the result of `findLongestSubStringThatContainsTwoCharacters`:
every valid span's length `j - i + 1` is at most the result's length. -/
theorem claim_C2_maximal (s : List Char) (c1 c2 : Char) (i j : Nat)
    (h : ValidSpan s c1 c2 i j) :
    j - i + 1 ≤ (findLongestSubStringThatContainsTwoCharacters s c1 c2).length :=
  findLongest_max h

theorem claim_C2_witness :
    ValidSpan strAAB 'a' 'b' 1 2 ∧
    2 - 1 + 1 ≤ (findLongestSubStringThatContainsTwoCharacters strAAB 'a' 'b').length :=
  ⟨by decide, claim_C2_maximal strAAB 'a' 'b' 1 2 (by decide)⟩

/-- C3: the non-empty result is the slice of a valid span `(i, j)` that comes first in
the row-major enumeration among all valid spans of maximal length: every valid span
`(i', j')` whose length ties the result's length satisfies `i < i'`, or `i = i'` and
`j ≤ j'`. -/
theorem claim_C3_tie_break (s : List Char) (c1 c2 : Char)
    (h : findLongestSubStringThatContainsTwoCharacters s c1 c2 ≠ []) :
    ∃ i j, ValidSpan s c1 c2 i j ∧
      findLongestSubStringThatContainsTwoCharacters s c1 c2 = pySlice s i (j + 1) ∧
      ∀ i' j', ValidSpan s c1 c2 i' j' →
        j' - i' + 1 = (findLongestSubStringThatContainsTwoCharacters s c1 c2).length →
        (i < i' ∨ (i = i' ∧ j ≤ j')) := by
  rcases findLongest_shape s c1 c2 with hemp | ⟨i, j, hv, heq⟩
  · exact absurd hemp h
  · obtain ⟨i0, jm, hv0, hmin, hmax⟩ := exists_extremal_span ⟨i, j, hv⟩
    have hlen : (findLongestSubStringThatContainsTwoCharacters s c1 c2).length = j - i + 1 := by
      rw [heq, pySlice_length hv.1 hv.2.1]
    have hbig := findLongest_max hv0
    rw [hlen] at hbig
    refine ⟨i, j, hv, heq, ?_⟩
    intro i' j' hv' hlen'
    rw [hlen] at hlen'
    have hii : i0 ≤ i := hmin i hv.2.2.1
    have hjj : j ≤ jm := hmax j hv.2.2.2
    have hii' : i0 ≤ i' := hmin i' hv'.2.2.1
    have hjj' : j' ≤ jm := hmax j' hv'.2.2.2
    obtain ⟨ha1, ha2, -, -⟩ := hv
    obtain ⟨hb1, hb2, -, -⟩ := hv'
    obtain ⟨hc1, hc2, -, -⟩ := hv0
    omega

theorem claim_C3_witness :
    findLongestSubStringThatContainsTwoCharacters strAAA 'a' 'a' ≠ [] ∧
    (∃ i j, ValidSpan strAAA 'a' 'a' i j ∧
      findLongestSubStringThatContainsTwoCharacters strAAA 'a' 'a' = pySlice strAAA i (j + 1) ∧
      ∀ i' j', ValidSpan strAAA 'a' 'a' i' j' →
        j' - i' + 1 = (findLongestSubStringThatContainsTwoCharacters strAAA 'a' 'a').length →
        (i < i' ∨ (i = i' ∧ j ≤ j'))) :=
  ⟨by decide, claim_C3_tie_break strAAA 'a' 'a' (by decide)⟩

/-- C4: the function is total by construction (the embedding is a plain Lean function,
mirroring the fact that the Python code raises no exception for any input), and it
returns the empty sequence exactly when no valid span exists; in particular on the
empty sequence, when `c1` never occurs, and when `c2` never occurs. -/
theorem claim_C4_empty_iff (s : List Char) (c1 c2 : Char) :
    (findLongestSubStringThatContainsTwoCharacters s c1 c2 = [] ↔
       ¬ ∃ i j, ValidSpan s c1 c2 i j) ∧
    findLongestSubStringThatContainsTwoCharacters [] c1 c2 = [] ∧
    (c1 ∉ s → findLongestSubStringThatContainsTwoCharacters s c1 c2 = []) ∧
    (c2 ∉ s → findLongestSubStringThatContainsTwoCharacters s c1 c2 = []) := by
  refine ⟨findLongest_empty_iff s c1 c2, rfl, ?_, ?_⟩
  · intro hc1
    rw [findLongest_empty_iff]
    rintro ⟨i, j, hv⟩
    exact hc1 (List.get?_mem hv.2.2.1)
  · intro hc2
    rw [findLongest_empty_iff]
    rintro ⟨i, j, hv⟩
    exact hc2 (List.get?_mem hv.2.2.2)

theorem claim_C4_witness :
    ('z' ∉ strBA ∧ findLongestSubStringThatContainsTwoCharacters strBA 'z' 'b' = []) ∧
    ('z' ∉ strBA ∧ findLongestSubStringThatContainsTwoCharacters strBA 'a' 'z' = []) :=
  ⟨⟨by decide, (claim_C4_empty_iff strBA 'z' 'b').2.2.1 (by decide)⟩,
   ⟨by decide, (claim_C4_empty_iff strBA 'a' 'z').2.2.2 (by decide)⟩⟩

/-- C6: the function is pure and deterministic. In this shallow embedding the
operation is a Lean function of its three arguments alone — there is no state it
could read or write — so two applications to the same inputs are definitionally
equal results. -/
theorem claim_C6_pure (s : List Char) (c1 c2 : Char) :
    findLongestSubStringThatContainsTwoCharacters s c1 c2 =
      findLongestSubStringThatContainsTwoCharacters s c1 c2 := rfl

/-- C7: the spec's concrete scenarios: `("ba", 'a', 'b')` yields the empty string,
`("aab", 'a', 'b')` yields `"aab"`, and `("aaa", 'a', 'a')` yields `"aaa"`. -/
theorem claim_C7_scenarios :
    findLongestSubStringThatContainsTwoCharacters strBA 'a' 'b' = [] ∧
    findLongestSubStringThatContainsTwoCharacters strAAB 'a' 'b' = strAAB ∧
    findLongestSubStringThatContainsTwoCharacters strAAA 'a' 'a' = strAAA :=
  ⟨by decide, by decide, by decide⟩

/-! ### The O(N) one-pass alternative described by the spec -/

/-- Modelled from the spec's design note: the O(N) one-pass alternative tracks
`firstStart`, the first index of `startMarker` seen so far, and for each occurrence
of `endMarker` at index `j` computes the span length from that earliest recorded
`startMarker` index, keeping the longest slice under a strict greater-than
comparison. A `startMarker` index is recorded at the end of its own iteration, so
an `endMarker` at `j` is only ever paired with a strictly earlier start — matching
the spec's requirement `i < j` on spans. -/
def onePassStep (s : List Char) (c1 c2 : Char) :
    Option Nat × List Char → Nat → Option Nat × List Char
  | (none, lg), j => (if s.get? j = some c1 then some j else none, lg)
  | (some i0, lg), j =>
      (some i0,
       if s.get? j = some c2 ∧ (pySlice s i0 (j + 1)).length > lg.length then
         pySlice s i0 (j + 1)
       else lg)

/-- Modelled from the spec: the full one-pass scan, folding `onePassStep` over the
indices of the sequence in ascending order. -/
def onePassSpec (s : List Char) (c1 c2 : Char) : List Char :=
  ((List.range s.length).foldl (onePassStep s c1 c2) (none, [])).2

/-- Invariant on the `firstStart` component after the first `k` iterations. -/
def FSInv (s : List Char) (c1 : Char) (k : Nat) : Option Nat → Prop
  | some i0 => i0 < k ∧ s.get? i0 = some c1 ∧ ∀ i < i0, s.get? i ≠ some c1
  | none => ∀ i < k, s.get? i ≠ some c1

/-- Invariant on the `longest` component after the first `k` iterations: it is empty
and no valid span ends before index `k`, or it is the slice from the overall first
`c1` index to the last `c2` index before `k` that has some earlier `c1`. -/
def LGInv (s : List Char) (c1 c2 : Char) (k : Nat) (lg : List Char) : Prop :=
  (lg = [] ∧ ∀ i j, i < j → j < k → ¬(s.get? i = some c1 ∧ s.get? j = some c2)) ∨
  (∃ i0 jm, i0 < jm ∧ jm < k ∧ s.get? i0 = some c1 ∧ s.get? jm = some c2 ∧
    (∀ i, s.get? i = some c1 → i0 ≤ i) ∧
    (∀ j, j < k → s.get? j = some c2 → (∃ i, i < j ∧ s.get? i = some c1) → j ≤ jm) ∧
    lg = pySlice s i0 (jm + 1))

lemma onePassStep_inv {s : List Char} {c1 c2 : Char} {k : Nat} {fs : Option Nat}
    {lg : List Char} (hFS : FSInv s c1 k fs) (hLG : LGInv s c1 c2 k lg) :
    FSInv s c1 (k + 1) (onePassStep s c1 c2 (fs, lg) k).1 ∧
    LGInv s c1 c2 (k + 1) (onePassStep s c1 c2 (fs, lg) k).2 := by
  cases fs with
  | none =>
      have hFS' : ∀ i < k, s.get? i ≠ some c1 := hFS
      constructor
      · show FSInv s c1 (k + 1) (if s.get? k = some c1 then some k else none)
        split
        · next h => exact ⟨by omega, h, fun i hi => hFS' i hi⟩
        · next h =>
            intro i hi
            rcases Nat.lt_succ_iff_lt_or_eq.mp hi with hlt | rfl
            · exact hFS' i hlt
            · exact h
      · show LGInv s c1 c2 (k + 1) lg
        rcases hLG with ⟨hemp, hnop⟩ | ⟨i0, jm, hb1, hb2, hb3, -, -, -, -⟩
        · left
          refine ⟨hemp, ?_⟩
          intro i j hij hj hpair
          rcases Nat.lt_succ_iff_lt_or_eq.mp hj with hlt | rfl
          · exact hnop i j hij hlt hpair
          · exact hFS' i hij hpair.1
        · exact absurd hb3 (hFS' i0 (by omega))
  | some i0 =>
      obtain ⟨hf1, hf2, hf3⟩ := hFS
      have hmin : ∀ i, s.get? i = some c1 → i0 ≤ i := fun i hi =>
        Nat.le_of_not_lt (fun hlt => hf3 i hlt hi)
      refine ⟨⟨by omega, hf2, hf3⟩, ?_⟩
      show LGInv s c1 c2 (k + 1)
        (if s.get? k = some c2 ∧ (pySlice s i0 (k + 1)).length > lg.length then
           pySlice s i0 (k + 1)
         else lg)
      split
      · next hcond =>
          right
          refine ⟨i0, k, hf1, by omega, hf2, hcond.1, hmin, ?_, rfl⟩
          intro j hj _ _
          omega
      · next hcond =>
          rcases hLG with ⟨hemp, hnop⟩ | ⟨i0', jm, hb1, hb2, hb3, hb4, hb5, hb6, heq⟩
          · left
            refine ⟨hemp, ?_⟩
            intro i j hij hj hpair
            rcases Nat.lt_succ_iff_lt_or_eq.mp hj with hlt | rfl
            · exact hnop i j hij hlt hpair
            · refine hcond ⟨hpair.2, ?_⟩
              have hik : i0 ≤ i := hmin i hpair.1
              have hklen : j < s.length := lt_length_of_get?_eq_some hpair.2
              rw [hemp, pySlice_length (by omega) hklen]
              simp only [List.length_nil]
              omega
          · right
            have hi0 : i0' = i0 := by
              have ha : i0' ≤ i0 := hb5 i0 hf2
              have hb : i0 ≤ i0' := hmin i0' hb3
              omega
            refine ⟨i0', jm, hb1, by omega, hb3, hb4, hb5, ?_, heq⟩
            intro j hj hc2' hex
            rcases Nat.lt_succ_iff_lt_or_eq.mp hj with hlt | rfl
            · exact hb6 j hlt hc2' hex
            · exfalso
              refine hcond ⟨hc2', ?_⟩
              have hklen : j < s.length := lt_length_of_get?_eq_some hc2'
              have hjmlen : jm < s.length := lt_length_of_get?_eq_some hb4
              rw [heq, pySlice_length (by omega) hklen, pySlice_length hb1 hjmlen]
              omega

lemma onePass_foldl_inv (s : List Char) (c1 c2 : Char) :
    ∀ k : Nat,
      FSInv s c1 k ((List.range k).foldl (onePassStep s c1 c2) (none, [])).1 ∧
      LGInv s c1 c2 k ((List.range k).foldl (onePassStep s c1 c2) (none, [])).2 := by
  intro k
  induction k with
  | zero =>
      constructor
      · exact fun i hi => absurd hi (by omega)
      · exact Or.inl ⟨rfl, fun i j hij hj => absurd hj (by omega)⟩
  | succ k ih =>
      rw [List.range_succ, List.foldl_append, List.foldl_cons, List.foldl_nil]
      exact onePassStep_inv ih.1 ih.2

/-- On every input, the one-pass alternative computes the same result as the
brute-force reference scan: for each fixed end marker, the earliest recorded start
marker already yields the longest possible span, so the two policies coincide. -/
lemma onePassSpec_eq (s : List Char) (c1 c2 : Char) :
    onePassSpec s c1 c2 = findLongestSubStringThatContainsTwoCharacters s c1 c2 := by
  unfold onePassSpec
  obtain ⟨-, hLG⟩ := onePass_foldl_inv s c1 c2 s.length
  rcases hLG with ⟨hemp, hnop⟩ | ⟨i0, jm, h1, h2, h3, h4, h5, h6, heq⟩
  · rw [hemp]
    symm
    rw [findLongest_empty_iff]
    rintro ⟨i, j, hv⟩
    exact hnop i j hv.1 hv.2.1 ⟨hv.2.2.1, hv.2.2.2⟩
  · rw [heq]
    have hv : ValidSpan s c1 c2 i0 jm := ⟨h1, lt_length_of_get?_eq_some h4, h3, h4⟩
    have hext : ∀ i j, ValidSpan s c1 c2 i j → i0 ≤ i ∧ j ≤ jm := fun i j hv' =>
      ⟨h5 i hv'.2.2.1, h6 j hv'.2.1 hv'.2.2.2 ⟨i, hv'.1, hv'.2.2.1⟩⟩
    exact (findLongest_eq_pySlice hv hext).symm

/-- C5 counterexample: there is no sequence and marker pair on which the one-pass
alternative produces a different result than the reference algorithm — the earliest
occurrence of the start marker always yields the (weakly) longest span for any fixed
end marker, so the divergence scenario the spec describes cannot occur. -/
theorem claim_C5_counterexample :
    ¬ ∃ (s : List Char) (c1 c2 : Char),
        onePassSpec s c1 c2 ≠ findLongestSubStringThatContainsTwoCharacters s c1 c2 := by
  rintro ⟨s, c1, c2, hne⟩
  exact hne (onePassSpec_eq s c1 c2)

/-- C5 (amended): on every sequence and marker pair the O(N) one-pass alternative
produces exactly the same result as the reference ascending-pair enumeration: an
internal occurrence of the start marker combined with a later end marker can never
produce a longer span than the first-seen start marker with that same end marker. -/
theorem claim_C5_one_pass_agrees (s : List Char) (c1 c2 : Char) :
    onePassSpec s c1 c2 = findLongestSubStringThatContainsTwoCharacters s c1 c2 :=
  onePassSpec_eq s c1 c2

/-! ### Embedding of `main.py` -/

/-- Python values appearing in `main.py`: `None`, integers, and strings. -/
inductive PyVal where
  | none : PyVal
  | int : Int → PyVal
  | str : List Char → PyVal
deriving DecidableEq

/-- Python truthiness of a string: non-empty strings are truthy. -/
def pyTruthyStr (s : List Char) : Bool := !s.isEmpty

def strSpace : List Char := " ".toList

def strDash : List Char := "-".toList

def strPlus : List Char := "+".toList

def strHelloWorld : List Char := "Hello World".toList

def strL : List Char := "l".toList

/-- Python slice `s[:k]` for an integer `k`, including the negative-index case. -/
def pySliceTo (s : List Char) (k : Int) : List Char :=
  if 0 ≤ k then s.take k.toNat else s.take (s.length - (-k).toNat)

/-- Embedding of `SUBSTR` from `main.py`:

```python
def SUBSTR(cExpression, cStart, nCharactersReturned):
  start = int(cStart)
  if start > len(cExpression):
    print("Error, start position is greater than the length of the expression. ...")
  elif nCharactersReturned is None or " ":
    return cExpression[:len(cExpression)]
  else:
    val = cExpression[:nCharactersReturned]
    return val
```

`cStart` is embedded as the integer that `int(cStart)` produces;
`nCharactersReturned` may be any Python value, embedded as `PyVal`. The first
branch prints and falls off the end of the function, which in Python returns
`None` — the `Option.none` result. The `elif` condition is Python's `or` of
`nCharactersReturned is None` and the non-empty (hence truthy) string literal
`" "`. The final branch, which slices, only makes sense for an integer count;
any other value would raise a `TypeError` there, also embedded as `none`. -/
def SUBSTR (cExpression : List Char) (cStart : Int) (nCharactersReturned : PyVal) :
    Option (List Char) :=
  if cStart > (cExpression.length : Int) then
    Option.none
  else if nCharactersReturned = PyVal.none ∨ pyTruthyStr strSpace = true then
    some (cExpression.take cExpression.length)
  else
    match nCharactersReturned with
    | PyVal.int k => some (pySliceTo cExpression k)
    | _ => Option.none

/-- C8: whenever `int(cStart) <= len(cExpression)`, `SUBSTR` returns the entire
`cExpression` unchanged for every value of `nCharactersReturned` whatsoever: the
condition `nCharactersReturned is None or " "` is always truthy because `" "` is a
non-empty string literal, so the branch that slices to `nCharactersReturned`
characters is unreachable. -/
theorem claim_C8_substr_identity (cExpression : List Char) (cStart : Int)
    (nCharactersReturned : PyVal) (h : cStart ≤ (cExpression.length : Int)) :
    SUBSTR cExpression cStart nCharactersReturned = some cExpression := by
  unfold SUBSTR
  rw [if_neg (by omega), if_pos (Or.inr (by decide)), List.take_length]

theorem claim_C8_witness :
    (1 : Int) ≤ (strHelloWorld.length : Int) ∧
    SUBSTR strHelloWorld 1 (PyVal.str strSpace) = some strHelloWorld :=
  ⟨by decide, claim_C8_substr_identity strHelloWorld 1 (PyVal.str strSpace) (by decide)⟩

/-- Model of Python `str.find`, indexing from the front of the remaining list:
`some 0` at a match of `sub`, otherwise one more than the result on the tail. An
empty `sub` matches immediately, as in Python. -/
def strFindAux (sub : List Char) : List Char → Option Nat
  | [] => if sub = [] then some 0 else Option.none
  | c :: rest =>
      if (c :: rest).take sub.length = sub then some 0
      else (strFindAux sub rest).map (fun n => n + 1)

/-- Model of Python `str.find`: the index of the first occurrence of `sub` in `s`,
or `-1` when `sub` does not occur. -/
def strFind (s sub : List Char) : Int :=
  match strFindAux sub s with
  | some k => (k : Int)
  | Option.none => -1

/-- Model of Python `str.count` for a non-empty pattern: scan left to right, and
after each match skip the rest of the matched characters (`skip` of them) so that
occurrences are counted without overlap, as Python does. -/
def strCountAux (sub : List Char) : List Char → Nat → Nat
  | [], _ => 0
  | c :: rest, 0 =>
      if (c :: rest).take sub.length = sub then 1 + strCountAux sub rest (sub.length - 1)
      else strCountAux sub rest 0
  | _ :: rest, skip + 1 => strCountAux sub rest skip

/-- Model of Python `str.count`: the number of non-overlapping occurrences of `sub`
in `s`; an empty `sub` is counted `len(s) + 1` times, as in Python. -/
def strCount (s sub : List Char) : Nat :=
  if sub = [] then s.length + 1 else strCountAux sub s 0

def atErrorMsg : List Char :=
  "Error, there are not that many occurances of the expression.".toList

/-- Embedding of `AT` from `main.py`:

```python
def AT(cSearchExpression, cExpressionSearched, nOccurrence):
  if nOccurrence > cSearchExpression.count(cExpressionSearched):
    return "Error, there are not that many occurances of the expression."
  else:
    return cSearchExpression.find(cExpressionSearched)
```

The function returns either a string (the error message) or an integer, embedded
as `PyVal`. -/
def AT (cSearchExpression cExpressionSearched : List Char) (nOccurrence : Int) : PyVal :=
  if nOccurrence > (strCount cSearchExpression cExpressionSearched : Int) then
    PyVal.str atErrorMsg
  else
    PyVal.int (strFind cSearchExpression cExpressionSearched)

/-- The pattern `sub` occurs in `s` at index `k`. -/
def MatchAt (s sub : List Char) (k : Nat) : Prop :=
  (s.drop k).take sub.length = sub

instance (s sub : List Char) (k : Nat) : Decidable (MatchAt s sub k) := by
  unfold MatchAt
  exact inferInstance

lemma strFindAux_spec (sub : List Char) :
    ∀ s : List Char,
      (∀ k, strFindAux sub s = some k → MatchAt s sub k ∧ ∀ m < k, ¬ MatchAt s sub m) ∧
      (∀ k, MatchAt s sub k → ∃ k0, k0 ≤ k ∧ strFindAux sub s = some k0) := by
  intro s
  induction s with
  | nil =>
      constructor
      · intro k hk
        unfold strFindAux at hk
        split at hk
        · next hsub =>
            injection hk with hk0
            subst hk0
            refine ⟨?_, fun m hm => absurd hm (by omega)⟩
            show (List.take sub.length []) = sub
            rw [List.take_nil, hsub]
        · next => exact absurd hk (by simp)
      · intro k hk
        refine ⟨0, by omega, ?_⟩
        unfold strFindAux
        rw [if_pos ?_]
        unfold MatchAt at hk
        rw [List.drop_nil, List.take_nil] at hk
        exact hk.symm
  | cons c rest ih =>
      constructor
      · intro k hk
        unfold strFindAux at hk
        split at hk
        · next hmatch =>
            injection hk with hk0
            subst hk0
            exact ⟨hmatch, fun m hm => absurd hm (by omega)⟩
        · next hmatch =>
            rw [Option.map_eq_some'] at hk
            obtain ⟨a, ha, hak⟩ := hk
            subst hak
            obtain ⟨hm, hmin⟩ := ih.1 a ha
            refine ⟨hm, ?_⟩
            intro m hm'
            cases m with
            | zero => exact hmatch
            | succ m => exact hmin m (by omega)
      · intro k hk
        unfold strFindAux
        split
        · next => exact ⟨0, by omega, rfl⟩
        · next hmatch =>
            cases k with
            | zero => exact absurd hk hmatch
            | succ m =>
                obtain ⟨k0, hk0le, hk0⟩ := ih.2 m hk
                refine ⟨k0 + 1, by omega, ?_⟩
                rw [hk0]
                rfl

lemma strFind_first {s sub : List Char} {k : Nat} (h : MatchAt s sub k) :
    ∃ k0 : Nat, strFind s sub = (k0 : Int) ∧ MatchAt s sub k0 ∧ k0 ≤ k ∧
      ∀ m < k0, ¬ MatchAt s sub m := by
  obtain ⟨k0, hle, hfa⟩ := (strFindAux_spec sub s).2 k h
  obtain ⟨hm, hmin⟩ := (strFindAux_spec sub s).1 k0 hfa
  refine ⟨k0, ?_, hm, hle, hmin⟩
  unfold strFind
  rw [hfa]

/-- C9: whenever `nOccurrence` is at most the number of occurrences of the searched
expression, `AT` returns the index of the FIRST occurrence (the value of
`str.find`), independently of `nOccurrence`: whenever the pattern occurs at some
index `k`, the returned index is the least index of an occurrence (hence at most
`k`), regardless of which occurrence `nOccurrence` asked for. -/
theorem claim_C9_at_first_occurrence (cSearchExpression cExpressionSearched : List Char)
    (nOccurrence : Int)
    (h : nOccurrence ≤ (strCount cSearchExpression cExpressionSearched : Int)) :
    AT cSearchExpression cExpressionSearched nOccurrence =
      PyVal.int (strFind cSearchExpression cExpressionSearched) ∧
    ∀ k, MatchAt cSearchExpression cExpressionSearched k →
      ∃ k0 : Nat, strFind cSearchExpression cExpressionSearched = (k0 : Int) ∧
        MatchAt cSearchExpression cExpressionSearched k0 ∧ k0 ≤ k ∧
        ∀ m < k0, ¬ MatchAt cSearchExpression cExpressionSearched m := by
  constructor
  · unfold AT
    rw [if_neg (by omega)]
  · intro k hk
    exact strFind_first hk

theorem claim_C9_witness :
    (2 : Int) ≤ (strCount strHelloWorld strL : Int) ∧
    AT strHelloWorld strL 2 = PyVal.int 2 := by
  refine ⟨by decide, ?_⟩
  rw [(claim_C9_at_first_occurrence strHelloWorld strL 2 (by decide)).1]
  decide

/-- Model of Python `str.isnumeric` on the characters appearing here: true for a
non-empty string of digits. (Unicode numerics beyond ASCII digits are not
modelled; no claim depends on them, since `VAL` ors this test with a truthy
string literal.) -/
def pyIsnumeric (s : List Char) : Bool :=
  !s.isEmpty && s.all Char.isDigit

/-- Numeric value of a list of decimal digits. -/
def digitsVal (l : List Char) : Nat :=
  l.foldl (fun a c => a * 10 + (c.toNat - '0'.toNat)) 0

/-- Parse a non-empty all-digit string, or fail. -/
def pyIntDigits? (l : List Char) : Option Nat :=
  if !l.isEmpty && l.all Char.isDigit then some (digitsVal l) else Option.none

/-- Model of Python `int(str)`: an optional sign followed by at least one digit
parses to the corresponding integer; anything else raises `ValueError`, embedded
as `none`. (Surrounding whitespace and underscore separators are not modelled;
no claim depends on them.) -/
def pyInt? (s : List Char) : Option Int :=
  match s with
  | '-' :: rest => (pyIntDigits? rest).map (fun n => -(n : Int))
  | '+' :: rest => (pyIntDigits? rest).map (fun n => (n : Int))
  | _ => (pyIntDigits? s).map (fun n => (n : Int))

/-- Python `round` applied to an `int` returns it unchanged. -/
def pyRound (n : Int) : Int := n

/-- Embedding of `VAL` from `main.py`:

```python
def VAL(cExpression):
  first_letter = cExpression[:1]
  length = len(cExpression)
  if first_letter.isnumeric() or "-" or "+":
      if length < 16:
        return int(cExpression)
  if length > 16:
    rounded = round(int(cExpression[:16]))
    return rounded
  else:
    return 0
```

When the inner `length < 16` test fails, control falls through to the second
`if`-statement; likewise when the outer condition is false. Exceptions raised by
`int()` propagate, embedded as `none`. The locals `first_letter` and `length` are
inlined. -/
def VAL (cExpression : List Char) : Option Int :=
  if pyIsnumeric (cExpression.take 1) || pyTruthyStr strDash || pyTruthyStr strPlus then
    if cExpression.length < 16 then pyInt? cExpression
    else if cExpression.length > 16 then (pyInt? (cExpression.take 16)).map pyRound
    else some 0
  else
    if cExpression.length > 16 then (pyInt? (cExpression.take 16)).map pyRound
    else some 0

/-- C10: on every string of length exactly 16, `VAL` returns 0 regardless of the
string's content: the guard `first_letter.isnumeric() or "-" or "+"` is always
truthy (`"-"` is a non-empty string literal), its branch returns only when the
length is strictly below 16, the next branch fires only above 16, and the
remaining `else` returns 0. -/
theorem claim_C10_val_sixteen (cExpression : List Char) (h : cExpression.length = 16) :
    VAL cExpression = some 0 := by
  unfold VAL
  have hcond :
      (pyIsnumeric (cExpression.take 1) || pyTruthyStr strDash || pyTruthyStr strPlus) = true := by
    have hd : pyTruthyStr strDash = true := by decide
    rw [hd, Bool.or_true, Bool.true_or]
  rw [if_pos hcond, if_neg (by omega), if_neg (by omega)]

def str16 : List Char := "abcdefghijklmnop".toList

theorem claim_C10_witness :
    str16.length = 16 ∧ VAL str16 = some 0 :=
  ⟨by decide, claim_C10_val_sixteen str16 (by decide)⟩
